import Mathlib

/-!
Verification development for `duplicity-util.py`, a configuration-driven
command-line front end that assembles and launches invocations of the
external `duplicity` backup tool.

The Python source is shallowly embedded below:

* `_validate_time_format` (lines 81-158) becomes `validateTimeFormat`.
  Python regular expressions are translated into decidable matchers on
  `List Char`; note that an anchored Python pattern `^...$` also accepts a
  single trailing newline (the semantics of `$` outside MULTILINE mode),
  which is modelled by `pyDollar`.  The `dateutil` import in the ISO
  branch is an external third-party dependency; the embedding follows the
  in-file manual parsing fallback (the `ImportError` branch, lines
  100-115).  `datetime.strptime` from the standard library is modelled by
  exact-shape parsing plus real-calendar-date construction (`isRealDate`).
* The command-assembling operations (`trigger_backup`, `restore_job`,
  `trigger_cleanup`, `get_job_status`, `list_job_content`) become pure
  functions from a configuration, a filesystem abstraction (the set of
  existing paths) and arguments to an `OpResult` recording the observable
  effects: the command string handed to `_run_duplicity_command`, error
  reports, and whether the local cache cleanup ran.
* `_run_duplicity_command`'s option insertion (lines 167-178) becomes
  `insertGlobalOptions`, and its string-to-argv conversion (line 187,
  `command.split()`) becomes `buildArgv` over `pySplitWs`.
* `main` (lines 546-626) becomes `mainRun`; uncaught Python exceptions
  are modelled with `Except PyErr`.  The attribute names that exist on a
  `BackupManager` object (from `__init__` and the class's method table)
  are listed in `backupManagerAttrs`, so that the attribute access
  `backup_manager.jobs` on line 601 can be decided faithfully.
-/

/-- Numeric value of a list of decimal digit characters, as Python's `int`. -/
def digitsToNat (cs : List Char) : Nat :=
  cs.foldl (fun a c => 10 * a + (c.toNat - 48)) 0

/-- Maximal split of a character list into a leading run of decimal digits
and the remainder (the way the regexes `\d+` and strptime's numeric fields
consume input, greedily). -/
def splitDigits : List Char → List Char × List Char
  | [] => ([], [])
  | c :: rest =>
    if c.isDigit then
      let p := splitDigits rest
      (c :: p.1, p.2)
    else ([], c :: rest)

/-- Interval unit characters of the grammar `<number>(s|m|h|D|W|M|Y)`. -/
def isUnit (c : Char) : Bool :=
  c == 's' || c == 'm' || c == 'h' || c == 'D' || c == 'W' || c == 'M' || c == 'Y'

/-- Characters admitted by the interval grammar (digits and unit letters). -/
def isGrammarChar (c : Char) : Bool := c.isDigit || isUnit c

/-- Python's `$` anchor (without MULTILINE): an anchored pattern matches the
whole string, or the whole string minus a single trailing newline. -/
def pyDollar (core : List Char → Bool) (cs : List Char) : Bool :=
  core cs || (cs.getLast? == some '\n' && core cs.dropLast)

/-- Fields of a string matching the ISO pattern
`^\d{4}-\d{2}-\d{2}T\d{2}:\d{2}:\d{2}[+-]\d{2}:\d{2}$` (line 90 of the
source): year, month, day, hour, minute, second, offset sign, offset hour,
offset minute.  Returns `none` when the 25-character shape does not match. -/
def isoFields (cs : List Char) :
    Option (Nat × Nat × Nat × Nat × Nat × Nat × Char × Nat × Nat) :=
  match cs with
  | [y1, y2, y3, y4, s1, mo1, mo2, s2, d1, d2, t, h1, h2, k1, mi1, mi2, k2,
     se1, se2, sg, oh1, oh2, k3, om1, om2] =>
    if ([y1, y2, y3, y4, mo1, mo2, d1, d2, h1, h2, mi1, mi2, se1, se2,
         oh1, oh2, om1, om2].all Char.isDigit
        && s1 == '-' && s2 == '-' && t == 'T' && k1 == ':' && k2 == ':'
        && (sg == '+' || sg == '-') && k3 == ':') then
      some (digitsToNat [y1, y2, y3, y4], digitsToNat [mo1, mo2],
            digitsToNat [d1, d2], digitsToNat [h1, h2],
            digitsToNat [mi1, mi2], digitsToNat [se1, se2],
            sg, digitsToNat [oh1, oh2], digitsToNat [om1, om2])
    else none
  | _ => none

/-- Matcher for the ISO datetime pattern on line 90 of the source. -/
def matchIsoCore (cs : List Char) : Bool := (isoFields cs).isSome

/-- Manual parsing fallback of the ISO branch (source lines 100-115): split
the matched string into its numeric components and range-check them
(`1 <= month <= 12 and 1 <= day <= 31 and 0 <= hour <= 23 and
0 <= minute <= 59 and 0 <= second <= 59`); the year and the UTC offset are
not checked.  The splits on `'T'`, the offset sign and `':'` are determined
by the already-matched pattern, so they are read off `isoFields`. -/
def isoFallbackCheck (cs : List Char) : Bool :=
  match isoFields cs with
  | some (_, mo, d, h, mi, se, _, _, _) =>
    1 ≤ mo && mo ≤ 12 && 1 ≤ d && d ≤ 31 && h ≤ 23 && mi ≤ 59 && se ≤ 59
  | none => false

/-- Matcher for the interval pattern `^(\d+[smhDWMY])+$` (source line 120).
Digits and unit letters are disjoint character classes, so the regex is
equivalent to this deterministic greedy parse. -/
def matchIntervalCore (cs : List Char) : Bool :=
  match h : splitDigits cs with
  | (_ :: _, u :: r) => isUnit u && (r.isEmpty || matchIntervalCore r)
  | _ => false
termination_by cs.length
decreasing_by
  have key : ∀ l : List Char, (splitDigits l).1 ++ (splitDigits l).2 = l := by
    intro l
    induction l with
    | nil => simp [splitDigits]
    | cons c rest ih =>
      by_cases hd : c.isDigit
      · simp [splitDigits, hd, ih]
      · simp [splitDigits, hd]
  have happ := key cs
  rw [h] at happ
  have hlen : cs.length = ((splitDigits cs).1 ++ (splitDigits cs).2).length := by
    rw [key cs]
  rw [h] at hlen
  simp only [List.length_append, List.length_cons] at hlen
  omega

/-- The components found by `re.findall(r'\d+[smhDWMY]', time_str)` (source
line 123): scan left to right; at each position try to match a digit run
followed by a unit letter, else advance one character. -/
def findIntervalComps (cs : List Char) : List (List Char) :=
  match cs with
  | [] => []
  | c :: rest =>
    match h : splitDigits (c :: rest) with
    | (d :: ds, u :: r) =>
      if isUnit u then (d :: ds ++ [u]) :: findIntervalComps r
      else findIntervalComps rest
    | _ => findIntervalComps rest
termination_by cs.length
decreasing_by
  · have key : ∀ l : List Char, (splitDigits l).1 ++ (splitDigits l).2 = l := by
      intro l
      induction l with
      | nil => simp [splitDigits]
      | cons c' rest' ih =>
        by_cases hd : c'.isDigit
        · simp [splitDigits, hd, ih]
        · simp [splitDigits, hd]
    have hlen : (c :: rest).length =
        ((splitDigits (c :: rest)).1 ++ (splitDigits (c :: rest)).2).length := by
      rw [key (c :: rest)]
    rw [h] at hlen
    simp only [List.length_append, List.length_cons] at hlen
    simp only [List.length_cons]
    omega
  · simp
  · simp

/-- Matcher for the per-component re-check `re.match(r'\d+[smhDWMY]$', comp)`
on source line 125. -/
def matchCompCore (cs : List Char) : Bool :=
  match splitDigits cs with
  | (_ :: _, [u]) => isUnit u
  | _ => false

/-- Per-component check of the interval branch, with Python `$` semantics. -/
def compCheck (cs : List Char) : Bool := pyDollar matchCompCore cs

/-- Shape shared by all four date patterns: three fields separated by two
separator characters, each field a nonempty digit run, nothing left over. -/
def parseThree (cs : List Char) :
    Option (List Char × Char × List Char × Char × List Char) :=
  match splitDigits cs with
  | (a, c1 :: r1) =>
    match splitDigits r1 with
    | (b, c2 :: r2) =>
      match splitDigits r2 with
      | (c, []) => some (a, c1, b, c2, c)
      | _ => none
    | _ => none
  | _ => none

/-- Matcher for `^\d{4}<sep>\d{1,2}<sep>\d{1,2}$` (source lines 132-133):
the `YYYY/MM/DD` and `YYYY-MM-DD` patterns. -/
def matchYMDCore (sep : Char) (cs : List Char) : Bool :=
  match parseThree cs with
  | some (a, c1, b, c2, c) =>
    c1 == sep && c2 == sep && a.length == 4 &&
    decide (1 ≤ b.length) && b.length ≤ 2 && decide (1 ≤ c.length) && c.length ≤ 2
  | none => false

/-- Matcher for `^\d{1,2}<sep>\d{1,2}<sep>\d{4}$` (source lines 134-135):
the `MM/DD/YYYY` and `MM-DD-YYYY` patterns. -/
def matchMDYCore (sep : Char) (cs : List Char) : Bool :=
  match parseThree cs with
  | some (a, c1, b, c2, c) =>
    c1 == sep && c2 == sep && decide (1 ≤ a.length) && a.length ≤ 2 &&
    decide (1 ≤ b.length) && b.length ≤ 2 && c.length == 4
  | none => false

/-- Gregorian leap-year rule used by Python's `datetime`. -/
def isLeapYear (y : Nat) : Bool :=
  (y % 4 == 0 && y % 100 != 0) || y % 400 == 0

/-- Number of days in a month of the proleptic Gregorian calendar. -/
def daysInMonth (y m : Nat) : Nat :=
  if m == 2 then (if isLeapYear y then 29 else 28)
  else if m == 4 || m == 6 || m == 9 || m == 11 then 30
  else 31

/-- Spec-side model of a real calendar date: exactly the `(year, month,
day)` triples for which Python's `datetime(year, month, day)` construction
succeeds (`MINYEAR = 1`, `MAXYEAR = 9999`). -/
def isRealDate (y m d : Nat) : Bool :=
  1 ≤ y && y ≤ 9999 && 1 ≤ m && m ≤ 12 && 1 ≤ d && d ≤ daysInMonth y m

/-- Model of `datetime.strptime(time_str, '%Y<sep>%m<sep>%d')` (source
line 142) succeeding: the whole string must have the exact field shape
(4-digit year, 1-2 digit month and day, nothing left over — a trailing
newline admitted by the regex `$` makes strptime fail with "unconverted
data remains"), and the fields must form a constructible calendar date. -/
def strptimeYMD (sep : Char) (cs : List Char) : Bool :=
  match parseThree cs with
  | some (a, c1, b, c2, c) =>
    c1 == sep && c2 == sep && a.length == 4 &&
    decide (1 ≤ b.length) && b.length ≤ 2 && decide (1 ≤ c.length) && c.length ≤ 2 &&
    isRealDate (digitsToNat a) (digitsToNat b) (digitsToNat c)
  | none => false

/-- Model of `datetime.strptime(time_str, '%m<sep>%d<sep>%Y')` succeeding. -/
def strptimeMDY (sep : Char) (cs : List Char) : Bool :=
  match parseThree cs with
  | some (a, c1, b, c2, c) =>
    c1 == sep && c2 == sep && decide (1 ≤ a.length) && a.length ≤ 2 &&
    decide (1 ≤ b.length) && b.length ≤ 2 && c.length == 4 &&
    isRealDate (digitsToNat c) (digitsToNat a) (digitsToNat b)
  | none => false

/-- One step of the date-format loop (source lines 138-145): if the regex
matches, try `strptime`; on success return `True`, on `ValueError`
`continue` with the remaining patterns; if the regex does not match, move
on directly. -/
def tryDate (mtch valid : List Char → Bool) (cs : List Char)
    (next : Except Unit Bool) : Except Unit Bool :=
  if pyDollar mtch cs then (if valid cs then Except.ok true else next) else next

/-- The date-format loop over the four patterns, ending in the
`raise ValueError(...)` of source lines 147-158. -/
def dateChecks (cs : List Char) : Except Unit Bool :=
  tryDate (matchYMDCore '/') (strptimeYMD '/') cs
    (tryDate (matchYMDCore '-') (strptimeYMD '-') cs
      (tryDate (matchMDYCore '/') (strptimeMDY '/') cs
        (tryDate (matchMDYCore '-') (strptimeMDY '-') cs
          (Except.error ()))))

/-- The time-specification validator `_validate_time_format` (source lines
81-158).  `Except.error ()` is the final `raise ValueError`; `Except.ok b`
is an ordinary return.  The ISO branch follows the manual parsing fallback
(see the module comment); when the pattern matched only thanks to a
trailing newline, that newline ends up in the unparsed UTC-offset field,
so the range check runs on the stripped string.  The interval branch
re-checks every component found by `findall` and falls through to the date
checks if one fails (the `for`/`else`). -/
def validateTimeFormat (s : String) : Except Unit Bool :=
  let cs := s.toList
  if matchIsoCore cs then Except.ok (isoFallbackCheck cs)
  else if cs.getLast? == some '\n' && matchIsoCore cs.dropLast then
    Except.ok (isoFallbackCheck cs.dropLast)
  else if pyDollar matchIntervalCore cs then
    (if (findIntervalComps cs).all compCheck then Except.ok true
     else dateChecks cs)
  else dateChecks cs

/-- Specification-side reading of the interval grammar of spec section 4.1:
a nonempty concatenation of components, each a nonempty digit run followed
by a unit letter.  The `strict` flag additionally demands every component's
integer be positive, as in the claim's words "positive integer". -/
def IsIntervalCompL (strict : Bool) (p : List Char) : Prop :=
  ∃ ds u, p = ds ++ [u] ∧ ds ≠ [] ∧ (∀ c ∈ ds, c.isDigit = true) ∧
    isUnit u = true ∧ (strict = true → 1 ≤ digitsToNat ds)

/-- Specification-side interval strings over character lists. -/
def IsIntervalL (strict : Bool) (cs : List Char) : Prop :=
  ∃ comps : List (List Char), comps ≠ [] ∧
    (∀ p ∈ comps, IsIntervalCompL strict p) ∧ cs = comps.flatten

/-- Specification-side interval strings, with nonnegative integers. -/
def IsIntervalString (s : String) : Prop := IsIntervalL false s.toList

/-- Specification-side interval strings, with strictly positive integers
(the claim's "one or more concatenated positive integer and unit"). -/
def IsPosIntervalString (s : String) : Prop := IsIntervalL true s.toList

/-- A job entry of the YAML catalog (spec section 3; consumed at source
lines 405-512).  `Option` fields model keys read with `job.get(...)`;
`source` and `retention` are accessed unconditionally (`job['source']`,
`job['retention']`). -/
structure Job where
  source : String
  retention : Nat
  fullifolder : Option Nat := none
  jobType : Option String := none
  compress : Option Bool := none
  encrypt : Option Bool := none
  includes : List String := []
  excludes : List String := []
  pre_script : Option String := none
  abort_on_pre_script_failure : Option Bool := none
deriving Repr, DecidableEq

/-- The loaded configuration: the top-level `destination` root string and
the `jobs` mapping (a Python dict, embedded as an association list with
distinct keys). -/
structure Config where
  destination : String
  jobs : List (String × Job)
deriving Repr, DecidableEq

/-- Uncaught Python exceptions reaching the top level. -/
inductive PyErr where
  | keyError (key : String)
  | attributeError (attr : String)
deriving Repr, DecidableEq

/-- Observable effects of one operation: the command string handed to
`_run_duplicity_command` (with the job name passed alongside), the error
messages printed with `_print_error`, whether `_local_cache_cleanup` was
invoked, and whether a pre-script was executed. -/
structure OpResult where
  invocation : Option String := none
  invokedJob : Option String := none
  errors : List String := []
  cacheCleanup : Bool := false
  preScriptRan : Bool := false
deriving Repr, DecidableEq

/-- Error message of source lines 408 and 500. -/
def jobNotFoundMsg (jobName : String) : String :=
  "Error: Job '" ++ jobName ++ "' not found"

/-- Error message of source line 371. -/
def restorePathMsg (dst : String) : String :=
  "Error: Restoration path '" ++ dst ++ "' does not exist"

/-- Python's `str.join`: interleave the separator between the elements. -/
def pyJoin (sep : String) : List String → String
  | [] => ""
  | [x] => x
  | x :: y :: rest => x ++ sep ++ pyJoin sep (y :: rest)

/-- Python's `pattern.strip("'\"")`: drop every leading and trailing
single- or double-quote character (source lines 479 and 485). -/
def stripQuotes (s : String) : String :=
  let isQ : Char → Bool := fun c => c == '\'' || c == '"'
  ⟨((s.toList.dropWhile isQ).reverse.dropWhile isQ).reverse⟩

/-- Backup command assembly (source lines 453-493): base verb from the job
type (`full`, or `incr` with `--full-if-older-than <fullifolder-or-
retention>D`), optional `--progress`, `--no-compression` unless compression
is enabled (default on), `--no-encryption` unless encryption is enabled
(default off), include patterns, exclude patterns, then source and
destination.  Each element of the returned list is one `cmd_parts` entry
(some contain internal spaces, exactly as in the source). -/
def backupCmdParts (job : Job) (destination : String) (showProgress : Bool) :
    List String :=
  let base : List String :=
    if job.jobType.getD "incremental" == "full" then ["duplicity full"]
    else ["duplicity incr --full-if-older-than " ++
          toString (job.fullifolder.getD job.retention) ++ "D"]
  let p1 := base ++ (if showProgress then ["--progress"] else [])
  let p2 := p1 ++ (if job.compress.getD true then [] else ["--no-compression"])
  let p3 := p2 ++ (if job.encrypt.getD false then [] else ["--no-encryption"])
  let p4 := p3 ++ job.includes.flatMap (fun pat => ["--include", stripQuotes pat])
  let p5 := p4 ++ job.excludes.flatMap (fun pat => ["--exclude", stripQuotes pat])
  p5 ++ [job.source, destination]

/-- The `trigger_backup` operation (source lines 405-495).  `preScriptOk`
stands for the success of `_execute_script` when a pre-script is
configured (script execution itself is an external effect). -/
def trigger_backup (cfg : Config) (jobName : String) (showProgress : Bool)
    (preScriptOk : Bool) : OpResult :=
  match cfg.jobs.lookup jobName with
  | none => { errors := [jobNotFoundMsg jobName] }
  | some job =>
    let destination := cfg.destination ++ jobName
    let ranScript := job.pre_script.isSome
    if job.pre_script.isSome && !preScriptOk &&
        job.abort_on_pre_script_failure.getD true then
      { errors := ["Pre-script failed",
                   "Aborting backup for job '" ++ jobName ++
                   "' due to pre-script failure"],
        preScriptRan := ranScript }
    else
      { invocation := some (pyJoin " " (backupCmdParts job destination showProgress)),
        invokedJob := some jobName,
        preScriptRan := ranScript }

/-- Destination resolution of `restore_job` (source lines 365-368): the
explicit `--restore-path` override if given, else the job's source path
(`self.config['jobs'][job_name]['source']`, a `KeyError` for a job name
absent from the catalog). -/
def restoreDest (cfg : Config) (jobName : String) (restorePath : Option String) :
    Except PyErr String :=
  match restorePath with
  | some rp => Except.ok rp
  | none =>
    match cfg.jobs.lookup jobName with
    | some job => Except.ok job.source
    | none => Except.error (PyErr.keyError jobName)

/-- The `restore_job` operation (source lines 361-403).  `fs` is the set of
paths for which `os.path.exists` answers true. -/
def restore_job (cfg : Config) (fs : List String) (jobName : String)
    (restorePath timeSpec pathToRestore : Option String)
    (showProgress force : Bool) : Except PyErr OpResult := do
  let source := cfg.destination ++ jobName
  let destination ← restoreDest cfg jobName restorePath
  if !(fs.contains destination) then
    pure { errors := [restorePathMsg destination] }
  else
    let p1 : List String := ["duplicity restore"]
    let p2 := p1 ++ (if showProgress then ["--progress"] else [])
    let p3 := p2 ++ (if force then ["--force"] else [])
    match timeSpec with
    | some ts =>
      match validateTimeFormat ts with
      | Except.error _ => pure { errors := ["Error: invalid time format"] }
      | Except.ok _ =>
        let p4 := p3 ++ ["--time", ts]
        let p5 := p4 ++ (match pathToRestore with
          | some ptr => ["--file-to-restore " ++ ptr]
          | none => [])
        pure { invocation := some (pyJoin " " (p5 ++ [source, destination])),
               invokedJob := some jobName, cacheCleanup := true }
    | none =>
      let p5 := p3 ++ (match pathToRestore with
        | some ptr => ["--file-to-restore " ++ ptr]
        | none => [])
      pure { invocation := some (pyJoin " " (p5 ++ [source, destination])),
             invokedJob := some jobName, cacheCleanup := true }

/-- The `trigger_cleanup` operation (source lines 497-512). -/
def trigger_cleanup (cfg : Config) (jobName : String) : OpResult :=
  match cfg.jobs.lookup jobName with
  | none => { errors := [jobNotFoundMsg jobName] }
  | some job =>
    let destination := cfg.destination ++ jobName
    { invocation := some ("duplicity remove-older-than " ++
        toString job.retention ++ "D " ++ destination ++ " --force"),
      invokedJob := some jobName, cacheCleanup := true }

/-- The `get_job_status` operation (source lines 515-522): no catalog
membership check, a single `collection-status` command. -/
def get_job_status (cfg : Config) (jobName : String) : OpResult :=
  let target := cfg.destination ++ jobName
  { invocation := some ("duplicity collection-status " ++ target),
    invokedJob := some jobName }

/-- The `list_job_content` operation (source lines 524-543): no catalog
membership check; an optional target date is validated first and aborts
the operation when invalid. -/
def list_job_content (cfg : Config) (jobName : String)
    (targetDate : Option String) : OpResult :=
  let target := cfg.destination ++ jobName
  match targetDate with
  | some d =>
    match validateTimeFormat d with
    | Except.error _ => { errors := ["Error: invalid time format"] }
    | Except.ok _ =>
      { invocation := some (pyJoin " " ["duplicity list-current-files",
          "-t " ++ d, target]),
        invokedJob := some jobName }
  | none =>
    { invocation := some (pyJoin " " ["duplicity list-current-files", target]),
      invokedJob := some jobName }

/-- Containment of one character list in another (Python's `in` for
strings, `'duplicity' in command`, source line 171). -/
def isSubList (needle hay : List Char) : Bool :=
  match hay with
  | [] => needle.isEmpty
  | _ :: t => needle.isPrefixOf hay || isSubList needle t

/-- Python's `command.split(' ', 1)` when at least one space is present:
the text before the first space and everything after it. -/
def splitFirstSpace : List Char → Option (List Char × List Char)
  | [] => none
  | c :: rest =>
    if c == ' ' then some ([], rest)
    else
      match splitFirstSpace rest with
      | some (a, b) => some (c :: a, b)
      | none => none

/-- Option insertion of `_run_duplicity_command` (source lines 167-178):
when the literal `duplicity` occurs in the command string, split the
string at its first space and re-assemble it as first token, the
`DUPLICITY_OPTIONS` overlay value, `--name=<job>` when a job name was
passed, then the remainder.  (When the string held no space, line 173's
`cmd_parts[1]` would raise `IndexError`; every command assembled by this
program contains a space, so that path is kept as the identity.) -/
def insertGlobalOptions (duplicityOptions : String) (jobName : Option String)
    (command : String) : String :=
  if isSubList "duplicity".toList command.toList then
    match splitFirstSpace command.toList with
    | some (h, r) =>
      match jobName with
      | some j =>
        String.mk h ++ " " ++ duplicityOptions ++ " --name=" ++ j ++ " " ++ String.mk r
      | none => String.mk h ++ " " ++ duplicityOptions ++ " " ++ String.mk r
    | none => command
  else command

/-- Whitespace characters of Python's `str.split()` with no argument. -/
def pyIsSpace (c : Char) : Bool :=
  c == ' ' || c == '\t' || c == '\n' || c == '\r' || c == '\x0b' || c == '\x0c'

/-- Word accumulator for Python's `str.split()`: `acc` holds the reversed
characters of the word currently being read. -/
def wordsAux : List Char → List Char → List (List Char)
  | [], acc => if acc.isEmpty then [] else [acc.reverse]
  | c :: rest, acc =>
    if pyIsSpace c then
      (if acc.isEmpty then wordsAux rest [] else acc.reverse :: wordsAux rest [])
    else wordsAux rest (c :: acc)

/-- Word decomposition of Python's `str.split()`: maximal runs of
non-whitespace characters, empty strings discarded. -/
def wordsWs (cs : List Char) : List (List Char) := wordsAux cs []

/-- Python's `str.split()` on a string. -/
def pySplitWs (s : String) : List String :=
  (wordsWs s.toList).map String.mk

/-- The argument vector handed to `subprocess.Popen` (source line 187:
`cmd_list = command.split()`). -/
def buildArgv (command : String) : List String := pySplitWs command

/-- Final argument vector produced by `_run_duplicity_command` for a
command string: global-option insertion followed by whitespace split. -/
def runDuplicityArgv (duplicityOptions : String) (jobName : Option String)
    (command : String) : List String :=
  buildArgv (insertGlobalOptions duplicityOptions jobName command)

/-- Attributes that exist on a `BackupManager` object: the instance
attributes assigned in `__init__` (source lines 33-40) and the class's
methods. -/
def backupManagerAttrs : List String :=
  ["config_file", "env_file", "nice_level", "ionice_class", "ionice_level",
   "config", "env",
   "_print_success", "_print_error", "_load_config", "_load_env",
   "_validate_time_format", "_run_duplicity_command", "_local_cache_cleanup",
   "_execute_script", "list_jobs", "restore_job", "trigger_backup",
   "trigger_cleanup", "get_job_status", "list_job_content"]

/-- Parsed command-line arguments (source lines 547-570). -/
structure Args where
  action : String
  job : Option String := none
  all : Bool := false
  restore_path : Option String := none
  path_to_restore : Option String := none
  time : Option String := none
  nice : Int := 19
  ionice_class : Nat := 2
  ionice_level : Nat := 7
  progress : Bool := false
  force : Bool := false
deriving Repr, DecidableEq

/-- Dispatch of the per-job loop body of the `--all` sweep (source lines
602-608): only backup, status and cleanup act; restore and content do
nothing inside the loop. -/
def sweepStep (cfg : Config) (action : String) (jobName : String) : OpResult :=
  if action == "backup" then trigger_backup cfg jobName false true
  else if action == "status" then get_job_status cfg jobName
  else if action == "cleanup" then trigger_cleanup cfg jobName
  else {}

/-- The `main` function after argument parsing (source lines 571-626),
returning the process exit code together with the per-job operation
results.  Exit code 1 reproduces the explicit `sys.exit(1)` calls; falling
off the end of `main` exits with code 0.  The `--all` sweep iterates over
`backup_manager.jobs.keys()` (line 601): `jobs` is resolved against the
object's attributes, raising `AttributeError` when absent. -/
def mainRun (cfg : Config) (fs : List String) (a : Args) :
    Except PyErr (Nat × List (String × OpResult)) := do
  if !(-20 ≤ a.nice && a.nice ≤ 19) then
    pure (1, [])
  else if a.ionice_class == 2 && !(a.ionice_level ≤ 7) then
    pure (1, [])
  else if a.action == "list" then
    pure (0, [])
  else if ["restore", "backup", "status", "content", "cleanup"].contains a.action then
    if a.job.isNone && !a.all then pure (1, [])
    else if a.job.isSome && a.all then pure (1, [])
    else if a.all then
      if backupManagerAttrs.contains "jobs" then
        pure (0, cfg.jobs.map (fun p => (p.1, sweepStep cfg a.action p.1)))
      else
        throw (PyErr.attributeError "jobs")
    else
      match a.job with
      | none => pure (1, [])
      | some j =>
        if a.action == "restore" then do
          let r ← restore_job cfg fs j a.restore_path a.time a.path_to_restore
                    a.progress a.force
          pure (0, [(j, r)])
        else if a.action == "backup" then
          pure (0, [(j, trigger_backup cfg j a.progress true)])
        else if a.action == "status" then
          pure (0, [(j, get_job_status cfg j)])
        else if a.action == "content" then
          pure (0, [(j, list_job_content cfg j a.time)])
        else
          pure (0, [(j, trigger_cleanup cfg j)])
  else
    pure (2, [])

/-- A sample catalog used to instantiate theorems with hypotheses: the
job `web` of spec section 8 (source `/srv/web`, retention 14) under
destination root `/backup/`. -/
def jobWeb : Job := { source := "/srv/web", retention := 14 }

/-- A second sample job with retention 30 and no full-cutover override. -/
def jobData : Job := { source := "/srv/data", retention := 30 }

/-- Sample configuration with the two sample jobs. -/
def cfgSample : Config :=
  { destination := "/backup/", jobs := [("web", jobWeb), ("data", jobData)] }

/-- Sample arguments: a restore of job `web` to an explicit path. -/
def argsRestoreNowhere : Args :=
  { action := "restore", job := some "web", restore_path := some "/nowhere" }

/-- The `(year, month, day)` triple denoted by a string of one of the four
date shapes: the 4-digit field is the year; the other two fields are month
then day, in that order (`%Y<sep>%m<sep>%d` and `%m<sep>%d<sep>%Y`). -/
def dateFieldsOf (cs : List Char) : Option (Nat × Nat × Nat) :=
  match parseThree cs with
  | some (a, _, b, _, c) =>
    if a.length == 4 then some (digitsToNat a, digitsToNat b, digitsToNat c)
    else some (digitsToNat c, digitsToNat a, digitsToNat b)
  | none => none

/-! ## Supporting lemmas -/

theorem splitDigits_append (cs : List Char) :
    (splitDigits cs).1 ++ (splitDigits cs).2 = cs := by
  induction cs with
  | nil => simp [splitDigits]
  | cons c rest ih =>
    by_cases h : c.isDigit
    · simp [splitDigits, h, ih]
    · simp [splitDigits, h]

theorem splitDigits_digits (cs : List Char) :
    ∀ c ∈ (splitDigits cs).1, c.isDigit = true := by
  induction cs with
  | nil => simp [splitDigits]
  | cons c rest ih =>
    by_cases h : c.isDigit
    · simpa [splitDigits, h] using ih
    · simp [splitDigits, h]

theorem splitDigits_snd_head (cs : List Char) :
    ∀ c ∈ (splitDigits cs).2.head?, c.isDigit = false := by
  induction cs with
  | nil => simp [splitDigits]
  | cons c rest ih =>
    by_cases h : c.isDigit
    · simpa [splitDigits, h] using ih
    · simp [splitDigits, h]

theorem splitDigits_of_digits (a b : List Char)
    (ha : ∀ c ∈ a, c.isDigit = true)
    (hb : ∀ c ∈ b.head?, c.isDigit = false) :
    splitDigits (a ++ b) = (a, b) := by
  induction a with
  | nil =>
    cases b with
    | nil => simp [splitDigits]
    | cons x xs =>
      have hx : x.isDigit = false := hb x (by simp)
      simp [splitDigits, hx]
  | cons c rest ih =>
    have hc : c.isDigit = true := ha c (by simp)
    have := ih (fun d hd => ha d (by simp [hd]))
    simp [splitDigits, hc, this]

theorem isUnit_not_digit {c : Char} (h : isUnit c = true) : c.isDigit = false := by
  simp only [isUnit, Bool.or_eq_true, beq_iff_eq] at h
  rcases h with ((((((h | h) | h) | h) | h) | h) | h) <;> subst h <;> decide

theorem mem_of_getLast?_eq {α : Type} {l : List α} {a : α}
    (h : l.getLast? = some a) : a ∈ l := by
  induction l with
  | nil => simp at h
  | cons x xs ih =>
    cases xs with
    | nil =>
      simp only [List.getLast?_singleton, Option.some.injEq] at h
      simp [h]
    | cons y ys =>
      rw [List.getLast?_cons_cons] at h
      exact List.mem_cons_of_mem x (ih h)

theorem pyDollar_of_getLast? (core : List Char → Bool) (cs : List Char)
    (h : cs.getLast? ≠ some '\n') : pyDollar core cs = core cs := by
  simp [pyDollar, h]

theorem pyDollar_of_no_newline (core : List Char → Bool) (cs : List Char)
    (h : '\n' ∉ cs) : pyDollar core cs = core cs := by
  refine pyDollar_of_getLast? core cs ?_
  intro hl
  exact h (mem_of_getLast?_eq hl)

/-! ## Claim C1 -/

/-- Claim C1: the claim states that during a multi-job sweep (`--all` with
the backup, status, or cleanup action) jobs are processed sequentially with
every per-job failure caught, and no uncaught fatal error is raised.  The
code instead raises an uncaught `AttributeError` before processing any job:
line 601 iterates over `backup_manager.jobs.keys()`, but `BackupManager`
objects have no attribute `jobs` (the catalog lives in `config`).  This
theorem evaluates the embedded `main` at any configuration and any `--all`
invocation that reaches the sweep: the result is the uncaught exception. -/
theorem all_jobs_sweep_raises_attribute_error
    (cfg : Config) (fs : List String) (a : Args)
    (hact : a.action ∈ ["restore", "backup", "status", "content", "cleanup"])
    (hall : a.all = true) (hjob : a.job = none)
    (hn1 : -20 ≤ a.nice) (hn2 : a.nice ≤ 19) (hio : a.ionice_level ≤ 7) :
    mainRun cfg fs a = Except.error (PyErr.attributeError "jobs") := by
  have hor : a.action = "restore" ∨ a.action = "backup" ∨ a.action = "status" ∨
      a.action = "content" ∨ a.action = "cleanup" := by simpa using hact
  have hne : a.action ≠ "list" := by
    rcases hor with h | h | h | h | h <;> simp [h]
  simp [mainRun, hall, hjob, hn1, hn2, hio, backupManagerAttrs, hne, hor]
  rfl

/-- Witness for C1: the concrete invocation `backup --all` on the sample
catalog ends in the uncaught `AttributeError`. -/
theorem all_jobs_sweep_attribute_error_witness :
    mainRun cfgSample [] { action := "backup", all := true } =
      Except.error (PyErr.attributeError "jobs") :=
  all_jobs_sweep_raises_attribute_error cfgSample []
    { action := "backup", all := true }
    (by decide) rfl rfl (by decide) (by decide) (by decide)

/-! ## Claim C2 -/

/-- Claim C2 counterexample: the claim states that every operation fails
without side effects when the job name is not in the catalog; but
`get_job_status` performs no membership check, so a status request for the
unknown job `ghost` still hands a `collection-status` command for
`/backup/ghost` to the external-tool runner. -/
theorem status_unknown_job_invokes_tool_cex :
    cfgSample.jobs.lookup "ghost" = none ∧
    (get_job_status cfgSample "ghost").invocation =
      some "duplicity collection-status /backup/ghost" := by
  constructor
  · rfl
  · rfl

/-- Claim C2 as amended: only the backup and cleanup operations check the
catalog and fail with an error report and no side effects for an unknown
job name; status and content perform no check and hand the external tool an
invocation even for unknown jobs; restore with an explicit restore path
that exists likewise invokes the tool, and restore without a restore path
raises an uncaught `KeyError` for an unknown job. -/
theorem unknown_job_side_effects_amended :
    (∀ (cfg : Config) (j : String) (prog psOk : Bool),
      cfg.jobs.lookup j = none →
      trigger_backup cfg j prog psOk = { errors := [jobNotFoundMsg j] }) ∧
    (∀ (cfg : Config) (j : String),
      cfg.jobs.lookup j = none →
      trigger_cleanup cfg j = { errors := [jobNotFoundMsg j] }) ∧
    (∀ (cfg : Config) (j : String),
      (get_job_status cfg j).invocation =
        some ("duplicity collection-status " ++ (cfg.destination ++ j))) ∧
    (∀ (cfg : Config) (j : String),
      (list_job_content cfg j none).invocation =
        some ("duplicity list-current-files " ++ (cfg.destination ++ j))) ∧
    (∀ (cfg : Config) (fs : List String) (j : String),
      cfg.jobs.lookup j = none →
      restore_job cfg fs j none none none false false =
        Except.error (PyErr.keyError j)) ∧
    (∀ (cfg : Config) (fs : List String) (j rp : String),
      fs.contains rp = true →
      restore_job cfg fs j (some rp) none none false false =
        Except.ok
          { invocation := some ("duplicity restore " ++ (cfg.destination ++ j) ++ " " ++ rp),
            invokedJob := some j, cacheCleanup := true }) := by
  refine ⟨?_, ?_, ?_, ?_, ?_, ?_⟩
  · intro cfg j prog psOk hl
    simp [trigger_backup, hl]
  · intro cfg j hl
    simp [trigger_cleanup, hl]
  · intro cfg j
    rfl
  · intro cfg j
    rfl
  · intro cfg fs j hl
    simp only [restore_job, restoreDest, hl]
    rfl
  · intro cfg fs j rp hrp
    have hmem : rp ∈ fs := by
      have : fs.elem rp = true := hrp
      exact List.mem_of_elem_eq_true this
    simp [restore_job, restoreDest, hmem, pyJoin, String.append_assoc,
      Bind.bind, Except.bind, Except.instMonad]
    rfl

/-- Witness for the amended C2, instantiating each part on the sample
catalog with the unknown job `ghost` (and an existing restore path). -/
theorem unknown_job_side_effects_witness :
    trigger_backup cfgSample "ghost" false true =
      { errors := [jobNotFoundMsg "ghost"] } ∧
    trigger_cleanup cfgSample "ghost" = { errors := [jobNotFoundMsg "ghost"] } ∧
    (get_job_status cfgSample "ghost").invocation =
      some ("duplicity collection-status " ++ ("/backup/" ++ "ghost")) ∧
    restore_job cfgSample [] "ghost" none none none false false =
      Except.error (PyErr.keyError "ghost") ∧
    restore_job cfgSample ["/tmp/r"] "ghost" (some "/tmp/r") none none false false =
      Except.ok
        { invocation := some ("duplicity restore " ++ ("/backup/" ++ "ghost") ++ " " ++ "/tmp/r"),
          invokedJob := some "ghost", cacheCleanup := true } :=
  ⟨unknown_job_side_effects_amended.1 cfgSample "ghost" false true rfl,
   unknown_job_side_effects_amended.2.1 cfgSample "ghost" rfl,
   unknown_job_side_effects_amended.2.2.1 cfgSample "ghost",
   unknown_job_side_effects_amended.2.2.2.2.1 cfgSample [] "ghost" rfl,
   unknown_job_side_effects_amended.2.2.2.2.2 cfgSample ["/tmp/r"] "ghost" "/tmp/r" rfl⟩

/-! ## Claim C3 -/

/-- Claim C3 counterexample: the claim states the process exits with code 1
when the restore destination does not exist.  On the sample catalog with a
filesystem in which `/nowhere` does not exist, the restore reports the
failure and issues no invocation, but `main` then falls off the end and the
process exits with code 0, not 1 (the commented-out `parser.error` at
source lines 580-581 is the vestige of that check). -/
theorem restore_missing_dest_exit_code_cex :
    mainRun cfgSample ["/srv/web"] argsRestoreNowhere =
      Except.ok (0, [("web", { errors := [restorePathMsg "/nowhere"] })]) := by
  rfl

/-- Claim C3 as amended: a restore request whose computed destination path
(explicit restore-path override, else the job's source path) does not exist
on disk produces a failure report and issues no external-tool invocation,
and the process exits normally with code 0 — exit code 1 is produced only
by the nice-range and job-selector argument checks. -/
theorem restore_missing_dest_amended
    (cfg : Config) (fs : List String) (a : Args) (j d : String)
    (hact : a.action = "restore") (hjob : a.job = some j) (hall : a.all = false)
    (hn1 : -20 ≤ a.nice) (hn2 : a.nice ≤ 19) (hio : a.ionice_level ≤ 7)
    (hdest : restoreDest cfg j a.restore_path = Except.ok d)
    (hex : d ∉ fs) :
    mainRun cfg fs a =
      Except.ok (0, [(j, { errors := [restorePathMsg d] })]) := by
  simp [mainRun, hact, hjob, hall, hn1, hn2, hio, restore_job, hdest,
    Bind.bind, Except.bind, Except.instMonad, hex]
  rfl

/-- Witness for the amended C3: the concrete missing-destination restore
from the counterexample, obtained by instantiating the theorem. -/
theorem restore_missing_dest_witness :
    mainRun cfgSample ["/srv/web"] argsRestoreNowhere =
      Except.ok (0, [("web", { errors := [restorePathMsg "/nowhere"] })]) ∧
    ("/nowhere" : String) ∉ (["/srv/web"] : List String) :=
  ⟨restore_missing_dest_amended cfgSample ["/srv/web"] argsRestoreNowhere
      "web" "/nowhere" rfl rfl rfl (by decide) (by decide) (by decide) rfl
      (by decide),
   by decide⟩

/-! ## Claim C7 -/

/-- Claim C7: for an incremental-type job the assembled backup command's
base part carries `--full-if-older-than ND` where `N` is the job's
`fullifolder` override when present and its `retention` otherwise (source
lines 453-458), and `trigger_backup` hands exactly the join of the
assembled parts to the external-tool runner. -/
theorem incremental_cutover_arg
    (cfg : Config) (j : String) (job : Job) (prog : Bool)
    (hlook : cfg.jobs.lookup j = some job)
    (hps : job.pre_script = none)
    (hty : job.jobType.getD "incremental" ≠ "full") :
    (trigger_backup cfg j prog true).invocation =
      some (pyJoin " " (backupCmdParts job (cfg.destination ++ j) prog)) ∧
    (backupCmdParts job (cfg.destination ++ j) prog).head? =
      some ("duplicity incr --full-if-older-than " ++
            toString (job.fullifolder.getD job.retention) ++ "D") := by
  constructor
  · simp [trigger_backup, hlook, hps]
  · have hb : (job.jobType.getD "incremental" == "full") = false := by
      simp [hty]
    simp [backupCmdParts, hb]

/-- Witness for C7: the job `data` (retention 30, no `fullifolder`) yields
the 30-day cutover argument. -/
theorem incremental_cutover_arg_witness :
    (trigger_backup cfgSample "data" false true).invocation =
      some (pyJoin " " (backupCmdParts jobData ("/backup/" ++ "data") false)) ∧
    (backupCmdParts jobData ("/backup/" ++ "data") false).head? =
      some ("duplicity incr --full-if-older-than 30D") :=
  incremental_cutover_arg cfgSample "data" jobData false rfl rfl (by decide)

/-! ## Claim C8 -/

/-- Claim C8: every operation derives the backup location as the literal
string concatenation of the catalog's destination root with the job name —
no separator is inserted and no normalization happens (source lines 364,
414, 504, 518, 527).  Status and content embed it directly in their
commands; cleanup embeds it before `--force`; backup places it as the last
assembled part; restore passes it as the source argument. -/
theorem backup_location_is_literal_concat
    (cfg : Config) (j : String) (job : Job) (prog : Bool) :
    ((get_job_status cfg j).invocation =
      some ("duplicity collection-status " ++ (cfg.destination ++ j))) ∧
    ((list_job_content cfg j none).invocation =
      some ("duplicity list-current-files " ++ (cfg.destination ++ j))) ∧
    (cfg.jobs.lookup j = some job →
      trigger_cleanup cfg j =
        { invocation := some ("duplicity remove-older-than " ++
            toString job.retention ++ "D " ++ (cfg.destination ++ j) ++ " --force"),
          invokedJob := some j, cacheCleanup := true }) ∧
    (cfg.jobs.lookup j = some job → job.pre_script = none →
      (backupCmdParts job (cfg.destination ++ j) prog).getLast? =
          some (cfg.destination ++ j) ∧
      (trigger_backup cfg j prog true).invocation =
        some (pyJoin " " (backupCmdParts job (cfg.destination ++ j) prog))) ∧
    (∀ (fs : List String) (rp : String), rp ∈ fs →
      restore_job cfg fs j (some rp) none none false false =
        Except.ok
          { invocation := some ("duplicity restore " ++ (cfg.destination ++ j) ++ " " ++ rp),
            invokedJob := some j, cacheCleanup := true }) := by
  refine ⟨rfl, rfl, ?_, ?_, ?_⟩
  · intro hlook
    simp [trigger_cleanup, hlook]
  · intro hlook hps
    constructor
    · simp [backupCmdParts]
    · simp [trigger_backup, hlook, hps]
  · intro fs rp hmem
    simp [restore_job, restoreDest, hmem, pyJoin, String.append_assoc,
      Bind.bind, Except.bind, Except.instMonad]
    rfl

/-- Witness for C8: destination root `/backup/` and job `web` give the
backup location `/backup/web` in the status and cleanup commands. -/
theorem backup_location_witness :
    (get_job_status cfgSample "web").invocation =
      some "duplicity collection-status /backup/web" ∧
    trigger_cleanup cfgSample "web" =
      { invocation := some "duplicity remove-older-than 14D /backup/web --force",
        invokedJob := some "web", cacheCleanup := true } := by
  have h := backup_location_is_literal_concat cfgSample "web" jobWeb false
  exact ⟨h.1, h.2.2.1 rfl⟩

/-! ## Claim C9 -/

theorem splitFirstSpace_append (h r : List Char)
    (hh : ∀ c ∈ h, c ≠ ' ') :
    splitFirstSpace (h ++ ' ' :: r) = some (h, r) := by
  induction h with
  | nil => simp [splitFirstSpace]
  | cons c t ih =>
    have hc : c ≠ ' ' := hh c (by simp)
    have ht := ih (fun d hd => hh d (by simp [hd]))
    have hcb : (c == ' ') = false := by simpa using hc
    simp [splitFirstSpace, hcb, ht]

theorem stringMk_toList (s : String) : String.mk s.toList = s := rfl

/-- Claim C9 counterexample: the claim states the operator-level global
options and the `--name=<job>` tag are inserted immediately after the
tool's verb token (the operation verb such as `collection-status`).  The
code splits at the first space of the command string — right after the
program name `duplicity` — so the options and name tag land before the
verb: in the resulting token list the verb `collection-status` comes
fourth, after `duplicity`, the options, and `--name=web`. -/
theorem global_options_inserted_before_verb_cex :
    insertGlobalOptions "-v8" (some "web") "duplicity collection-status /backup/web" =
      "duplicity -v8 --name=web collection-status /backup/web" ∧
    pySplitWs (insertGlobalOptions "-v8" (some "web")
        "duplicity collection-status /backup/web") =
      ["duplicity", "-v8", "--name=web", "collection-status", "/backup/web"] := by
  constructor
  · rfl
  · rfl

/-- Claim C9 as amended: for every external-tool invocation with a job
name, the global options from the environment overlay and the
`--name=<job>` tag are inserted immediately after the first
whitespace-delimited token of the command string — the external tool's
program name — that is, before the operation verb and all remaining
assembled arguments (source lines 171-176 split with
`command.split(' ', 1)`). -/
theorem global_options_after_first_token_amended
    (opts j first rest : String)
    (hns : ∀ c ∈ first.toList, c ≠ ' ')
    (hdup : isSubList "duplicity".toList (first ++ " " ++ rest).toList = true) :
    insertGlobalOptions opts (some j) (first ++ " " ++ rest) =
      first ++ " " ++ opts ++ " --name=" ++ j ++ " " ++ rest := by
  have hsplit : splitFirstSpace ((first ++ " " ++ rest).toList) =
      some (first.toList, rest.toList) := by
    have : (first ++ " " ++ rest).toList = first.toList ++ ' ' :: rest.toList := by
      simp [String.toList]
    rw [this]
    exact splitFirstSpace_append first.toList rest.toList hns
  simp only [insertGlobalOptions, hdup, if_true, hsplit, stringMk_toList]

/-- Witness for the amended C9: the status command for job `web` with
overlay options `-v8`. -/
theorem global_options_after_first_token_witness :
    insertGlobalOptions "-v8" (some "web") ("duplicity" ++ " " ++ "collection-status /backup/web") =
      "duplicity" ++ " " ++ "-v8" ++ " --name=" ++ "web" ++ " " ++ "collection-status /backup/web" :=
  global_options_after_first_token_amended "-v8" "web" "duplicity"
    "collection-status /backup/web" (by decide) (by decide)

/-! ## Claim C10 -/

theorem wordsAux_no_space :
    ∀ (cs acc : List Char), (∀ c ∈ acc, pyIsSpace c = false) →
      ∀ t ∈ wordsAux cs acc, ∀ c ∈ t, pyIsSpace c = false := by
  intro cs
  induction cs with
  | nil =>
    intro acc hacc t ht c hc
    cases he : acc.isEmpty
    · rw [wordsAux, he] at ht
      simp only [Bool.false_eq_true, if_false, List.mem_singleton] at ht
      subst ht
      exact hacc c (List.mem_reverse.mp hc)
    · rw [wordsAux, he] at ht
      simp at ht
  | cons x rest ih =>
    intro acc hacc t ht c hc
    by_cases hx : pyIsSpace x
    · cases he : acc.isEmpty
      · rw [wordsAux] at ht
        simp only [hx, if_true, he, Bool.false_eq_true, if_false,
          List.mem_cons] at ht
        rcases ht with rfl | ht
        · exact hacc c (List.mem_reverse.mp hc)
        · exact ih [] (by simp) t ht c hc
      · rw [wordsAux] at ht
        simp only [hx, if_true, he, if_true] at ht
        exact ih [] (by simp) t ht c hc
    · rw [wordsAux] at ht
      simp only [hx, Bool.false_eq_true, if_false] at ht
      refine ih (x :: acc) ?_ t ht c hc
      intro d hd
      rcases List.mem_cons.mp hd with rfl | hd
      · simpa using hx
      · exact hacc d hd

/-- Claim C10: the argument vector handed to the child process is obtained
by splitting the assembled command string on whitespace (source line 187,
`cmd_list = command.split()`); consequently no element of the argument
vector contains a whitespace character, so any path or pattern containing a
space is delivered to the external tool as several separate arguments and
never as a single one. -/
theorem argv_whitespace_split :
    (∀ (opts : String) (jn : Option String) (cmd : String),
      runDuplicityArgv opts jn cmd = pySplitWs (insertGlobalOptions opts jn cmd)) ∧
    (∀ (cmd t : String), t ∈ pySplitWs cmd → ∀ c ∈ t.toList, pyIsSpace c = false) ∧
    (∀ (opts : String) (jn : Option String) (cmd p : String),
      (∃ c ∈ p.toList, pyIsSpace c = true) → p ∉ runDuplicityArgv opts jn cmd) := by
  have key : ∀ (cmd t : String), t ∈ pySplitWs cmd →
      ∀ c ∈ t.toList, pyIsSpace c = false := by
    intro cmd t ht c hc
    simp only [pySplitWs, List.mem_map] at ht
    obtain ⟨l, hl, rfl⟩ := ht
    exact wordsAux_no_space cmd.toList [] (by simp) l hl c hc
  refine ⟨fun _ _ _ => rfl, key, ?_⟩
  intro opts jn cmd p hsp hmem
  obtain ⟨c, hcp, hc⟩ := hsp
  have := key (insertGlobalOptions opts jn cmd) p hmem c hcp
  rw [this] at hc
  exact Bool.false_ne_true hc

/-- Witness for C10: a restore source path containing a space arrives as
two separate argv entries, never as one. -/
theorem argv_whitespace_split_witness :
    ("/my docs" : String) ∉
      runDuplicityArgv "-v8" (some "web") "duplicity restore /backup/web /my docs" ∧
    runDuplicityArgv "-v8" (some "web") "duplicity restore /backup/web /my docs" =
      ["duplicity", "-v8", "--name=web", "restore", "/backup/web", "/my", "docs"] :=
  ⟨argv_whitespace_split.2.2 "-v8" (some "web")
      "duplicity restore /backup/web /my docs" "/my docs"
      ⟨' ', by decide, by decide⟩,
   rfl⟩

/-! ## Claim C4 -/

/-- Claim C4 counterexample: the claim states the validator decides
pattern-matching ISO instants "by attempting full date/time construction".
The in-file manual fallback (source lines 100-115) only range-checks the
components (`1 <= day <= 31`), so the calendrically impossible instant
February 30 — which full date construction rejects — validates as `True`. -/
theorem iso_fallback_accepts_feb30_cex :
    isoFields "2023-02-30T07:00:00+02:00".toList =
      some (2023, 2, 30, 7, 0, 0, '+', 2, 0) ∧
    validateTimeFormat "2023-02-30T07:00:00+02:00" = Except.ok true ∧
    isRealDate 2023 2 30 = false := by
  refine ⟨rfl, rfl, by decide⟩

/-- Claim C4 as amended: for every string matching the ISO-instant pattern,
the validator (with the manual parsing fallback of the source, the
`dateutil` library being an external dependency) succeeds exactly when the
components pass the range checks month 1-12, day 1-31, hour 0-23, minute
0-59, second 0-59 (the year and UTC offset are unchecked); hence month 0 or
13, day 32, hour 24 and minute 60 all fail, but calendrically invalid
in-range values such as February 30 are accepted — the decision is by
component range check, not by full date/time construction. -/
theorem iso_validation_range_check_amended
    (s : String) (y mo d h mi se : Nat) (sg : Char) (oh om : Nat)
    (hf : isoFields s.toList = some (y, mo, d, h, mi, se, sg, oh, om)) :
    (validateTimeFormat s = Except.ok true ↔
      (1 ≤ mo ∧ mo ≤ 12 ∧ 1 ≤ d ∧ d ≤ 31 ∧ h ≤ 23 ∧ mi ≤ 59 ∧ se ≤ 59)) := by
  simp only [String.toList] at hf
  have hm : matchIsoCore s.data = true := by
    simp [matchIsoCore, hf]
  simp [validateTimeFormat, String.toList, hm, isoFallbackCheck, hf]
  tauto

/-- Witness for the amended C4: the documentation's own example instant
validates, and the out-of-range components month 13 and hour 24 fail. -/
theorem iso_validation_range_check_witness :
    validateTimeFormat "2002-01-25T07:00:00+02:00" = Except.ok true ∧
    validateTimeFormat "2023-13-01T07:00:00+02:00" ≠ Except.ok true ∧
    validateTimeFormat "2023-01-01T24:00:00+02:00" ≠ Except.ok true := by
  refine ⟨?_, ?_, ?_⟩
  · exact (iso_validation_range_check_amended "2002-01-25T07:00:00+02:00"
      2002 1 25 7 0 0 '+' 2 0 rfl).mpr (by decide)
  · intro hcontra
    have := (iso_validation_range_check_amended "2023-13-01T07:00:00+02:00"
      2023 13 1 7 0 0 '+' 2 0 rfl).mp hcontra
    omega
  · intro hcontra
    have := (iso_validation_range_check_amended "2023-01-01T24:00:00+02:00"
      2023 1 1 24 0 0 '+' 2 0 rfl).mp hcontra
    omega

/-! ## Supporting lemmas for the interval and date branches -/

theorem matchIntervalCore_alphabet_aux :
    ∀ (n : Nat) (cs : List Char), cs.length ≤ n →
      matchIntervalCore cs = true → ∀ x ∈ cs, isGrammarChar x = true := by
  intro n
  induction n with
  | zero =>
    intro cs hlen h x hx
    have : cs = [] := List.eq_nil_of_length_eq_zero (Nat.le_zero.mp hlen)
    subst this
    simp at hx
  | succ n ih =>
    intro cs hlen h x hx
    unfold matchIntervalCore at h
    split at h
    next d ds u r heq =>
      simp only [Bool.and_eq_true, Bool.or_eq_true] at h
      obtain ⟨hu, hrest⟩ := h
      have happ := splitDigits_append cs
      rw [heq] at happ
      have hdig := splitDigits_digits cs
      rw [heq] at hdig
      rw [← happ] at hx
      rcases List.mem_append.mp hx with hx1 | hx2
      · simp [isGrammarChar, hdig x hx1]
      · rcases List.mem_cons.mp hx2 with rfl | hx3
        · simp [isGrammarChar, hu]
        · rcases hrest with hre | hcore
          · rw [List.isEmpty_iff.mp hre] at hx3
            simp at hx3
          · have hrlen : r.length ≤ n := by
              have : cs.length = (d :: ds).length + (u :: r).length := by
                rw [← happ, List.length_append]
              simp only [List.length_cons] at this
              omega
            exact ih r hrlen hcore x hx3
    next => simp at h

theorem matchIntervalCore_alphabet {cs : List Char}
    (h : matchIntervalCore cs = true) : ∀ x ∈ cs, isGrammarChar x = true :=
  matchIntervalCore_alphabet_aux cs.length cs (Nat.le_refl _) h

theorem matchIsoCore_has_T {cs : List Char} (h : matchIsoCore cs = true) :
    'T' ∈ cs ∧ '-' ∈ cs := by
  unfold matchIsoCore isoFields at h
  split at h
  next y1 y2 y3 y4 s1 mo1 mo2 s2 d1 d2 t h1 h2 k1 mi1 mi2 k2 se1 se2 sg
      oh1 oh2 k3 om1 om2 =>
    split at h
    next hcond =>
      simp only [Bool.and_eq_true, beq_iff_eq, Bool.or_eq_true] at hcond
      obtain ⟨⟨⟨⟨⟨⟨⟨hdig, hs1⟩, hs2⟩, ht⟩, hk1⟩, hk2⟩, hsg⟩, hk3⟩ := hcond
      subst ht hs1
      constructor
      · simp
      · simp
    next => simp at h
  next => simp at h

theorem parseThree_decomp {cs a b c : List Char} {c1 c2 : Char}
    (hp : parseThree cs = some (a, c1, b, c2, c)) :
    cs = a ++ c1 :: (b ++ c2 :: c) ∧
    (∀ x ∈ a, x.isDigit = true) ∧ (∀ x ∈ b, x.isDigit = true) ∧
    (∀ x ∈ c, x.isDigit = true) ∧ c1.isDigit = false ∧ c2.isDigit = false := by
  unfold parseThree at hp
  split at hp
  next a' c1' r1 heq1 =>
    split at hp
    next b' c2' r2 heq2 =>
      split at hp
      next c' heq3 =>
        obtain ⟨ha', hc1', hb', hc2', hcc'⟩ :
            a' = a ∧ c1' = c1 ∧ b' = b ∧ c2' = c2 ∧ c' = c := by
          simpa using hp
        have h1 := splitDigits_append cs
        rw [heq1] at h1
        have h2 := splitDigits_append r1
        rw [heq2] at h2
        have h3 := splitDigits_append r2
        rw [heq3] at h3
        have hda := splitDigits_digits cs
        rw [heq1] at hda
        have hdb := splitDigits_digits r1
        rw [heq2] at hdb
        have hdc := splitDigits_digits r2
        rw [heq3] at hdc
        have hh1 := splitDigits_snd_head cs
        rw [heq1] at hh1
        have hh2 := splitDigits_snd_head r1
        rw [heq2] at hh2
        dsimp only at h1 h2 h3 hda hdb hdc hh1 hh2
        simp only [List.append_nil] at h3
        rw [← ha', ← hc1', ← hb', ← hc2', ← hcc']
        refine ⟨?_, hda, hdb, hdc, ?_, ?_⟩
        · rw [← h1, ← h2, ← h3]
        · exact hh1 c1' (by simp)
        · exact hh2 c2' (by simp)
      next => simp at hp
    next => simp at hp
  next => simp at hp

theorem matchYMDCore_spec {sep : Char} {cs : List Char}
    (h : matchYMDCore sep cs = true) :
    ∃ a b c, parseThree cs = some (a, sep, b, sep, c) ∧ a.length = 4 ∧
      1 ≤ b.length ∧ b.length ≤ 2 ∧ 1 ≤ c.length ∧ c.length ≤ 2 := by
  unfold matchYMDCore at h
  split at h
  next a c1 b c2 c heq =>
    simp only [Bool.and_eq_true, beq_iff_eq, decide_eq_true_eq] at h
    obtain ⟨⟨⟨⟨⟨⟨hc1, hc2⟩, ha⟩, hb1⟩, hb2⟩, hcl1⟩, hcl2⟩ := h
    subst hc1 hc2
    exact ⟨a, b, c, heq, ha, hb1, hb2, hcl1, hcl2⟩
  next => simp at h

theorem matchMDYCore_spec {sep : Char} {cs : List Char}
    (h : matchMDYCore sep cs = true) :
    ∃ a b c, parseThree cs = some (a, sep, b, sep, c) ∧ 1 ≤ a.length ∧
      a.length ≤ 2 ∧ 1 ≤ b.length ∧ b.length ≤ 2 ∧ c.length = 4 := by
  unfold matchMDYCore at h
  split at h
  next a c1 b c2 c heq =>
    simp only [Bool.and_eq_true, beq_iff_eq, decide_eq_true_eq] at h
    obtain ⟨⟨⟨⟨⟨⟨hc1, hc2⟩, ha1⟩, ha2⟩, hb1⟩, hb2⟩, hcl⟩ := h
    subst hc1 hc2
    exact ⟨a, b, c, heq, ha1, ha2, hb1, hb2, hcl⟩
  next => simp at h

theorem dateShape_chars {cs a b c : List Char} {c1 c2 : Char}
    (hp : parseThree cs = some (a, c1, b, c2, c)) :
    ∀ x ∈ cs, x.isDigit = true ∨ x = c1 ∨ x = c2 := by
  obtain ⟨hcs, hda, hdb, hdc, _, _⟩ := parseThree_decomp hp
  intro x hx
  rw [hcs] at hx
  rcases List.mem_append.mp hx with hx1 | hx2
  · exact Or.inl (hda x hx1)
  · rcases List.mem_cons.mp hx2 with rfl | hx3
    · exact Or.inr (Or.inl rfl)
    · rcases List.mem_append.mp hx3 with hx4 | hx5
      · exact Or.inl (hdb x hx4)
      · rcases List.mem_cons.mp hx5 with rfl | hx6
        · exact Or.inr (Or.inr rfl)
        · exact Or.inl (hdc x hx6)

/-- A date-shaped string (separator `-` or `/`) fails the ISO matcher, has
no newline, and fails the interval matcher. -/
theorem dateShape_no_other_branch {cs a b c : List Char} {sep : Char}
    (hp : parseThree cs = some (a, sep, b, sep, c))
    (hsep : sep = '-' ∨ sep = '/') :
    matchIsoCore cs = false ∧ '\n' ∉ cs ∧ matchIntervalCore cs = false := by
  have hchars := dateShape_chars hp
  have hTd : ('T' : Char).isDigit = false := by decide
  refine ⟨?_, ?_, ?_⟩
  · by_contra hiso
    rw [Bool.not_eq_false] at hiso
    have hT := (matchIsoCore_has_T hiso).1
    rcases hchars 'T' hT with hd | rfl | rfl
    · rw [hTd] at hd
      exact Bool.false_ne_true hd
    · rcases hsep with h | h <;> exact absurd h (by decide)
    · rcases hsep with h | h <;> exact absurd h (by decide)
  · intro hnl
    rcases hchars '\n' hnl with hd | rfl | rfl
    · have : ('\n' : Char).isDigit = false := by decide
      rw [this] at hd
      exact Bool.false_ne_true hd
    · rcases hsep with h | h <;> exact absurd h (by decide)
    · rcases hsep with h | h <;> exact absurd h (by decide)
  · by_contra hint
    rw [Bool.not_eq_false] at hint
    have halpha := matchIntervalCore_alphabet hint
    have hsepmem : sep ∈ cs := by
      obtain ⟨hcs, _, _, _, _, _⟩ := parseThree_decomp hp
      rw [hcs]
      exact List.mem_append.mpr (Or.inr (List.mem_cons_self _ _))
    have := halpha sep hsepmem
    rcases hsep with rfl | rfl <;> simp [isGrammarChar, isUnit] at this

theorem strptimeYMD_of_match {sep : Char} {cs : List Char}
    (hm : matchYMDCore sep cs = true) :
    ∀ a b c, parseThree cs = some (a, sep, b, sep, c) →
      strptimeYMD sep cs =
        isRealDate (digitsToNat a) (digitsToNat b) (digitsToNat c) := by
  intro a b c hp
  obtain ⟨a', b', c', hp', ha, hb1, hb2, hc1, hc2⟩ := matchYMDCore_spec hm
  rw [hp] at hp'
  obtain ⟨rfl, rfl, rfl⟩ : a = a' ∧ b = b' ∧ c = c' := by simpa using hp'
  unfold strptimeYMD
  rw [hp]
  simp only [beq_self_eq_true, Bool.true_and, ha]
  simp [hb1, hb2, hc1, hc2]

theorem strptimeMDY_of_match {sep : Char} {cs : List Char}
    (hm : matchMDYCore sep cs = true) :
    ∀ a b c, parseThree cs = some (a, sep, b, sep, c) →
      strptimeMDY sep cs =
        isRealDate (digitsToNat c) (digitsToNat a) (digitsToNat b) := by
  intro a b c hp
  obtain ⟨a', b', c', hp', ha1, ha2, hb1, hb2, hc⟩ := matchMDYCore_spec hm
  rw [hp] at hp'
  obtain ⟨rfl, rfl, rfl⟩ : a = a' ∧ b = b' ∧ c = c' := by simpa using hp'
  unfold strptimeMDY
  rw [hp]
  simp only [beq_self_eq_true, Bool.true_and, hc]
  simp [ha1, ha2, hb1, hb2]

/-- The four date matchers are mutually exclusive on a single string: the
parse shape is unique, so the separators and the field widths pin down at
most one matcher. -/
theorem matchYMDCore_exclusive {s1 s2 : Char} {cs : List Char}
    (h1 : matchYMDCore s1 cs = true) (h2 : matchYMDCore s2 cs = true) :
    s1 = s2 := by
  obtain ⟨a, b, c, hp, _, _, _, _, _⟩ := matchYMDCore_spec h1
  obtain ⟨a', b', c', hp', _, _, _, _, _⟩ := matchYMDCore_spec h2
  rw [hp] at hp'
  have h12 : s1 = s2 := by
    simpa using congrArg (fun o => o.map (fun q => q.2.1)) hp'
  exact h12

theorem matchMDYCore_exclusive {s1 s2 : Char} {cs : List Char}
    (h1 : matchMDYCore s1 cs = true) (h2 : matchMDYCore s2 cs = true) :
    s1 = s2 := by
  obtain ⟨a, b, c, hp, _, _, _, _, _⟩ := matchMDYCore_spec h1
  obtain ⟨a', b', c', hp', _, _, _, _, _⟩ := matchMDYCore_spec h2
  rw [hp] at hp'
  have h12 : s1 = s2 := by
    simpa using congrArg (fun o => o.map (fun q => q.2.1)) hp'
  exact h12

theorem matchYMD_MDY_exclusive {s1 s2 : Char} {cs : List Char}
    (h1 : matchYMDCore s1 cs = true) (h2 : matchMDYCore s2 cs = true) :
    False := by
  obtain ⟨a, b, c, hp, ha, _, _, _, _⟩ := matchYMDCore_spec h1
  obtain ⟨a', b', c', hp', ha1, ha2, _, _, _⟩ := matchMDYCore_spec h2
  rw [hp] at hp'
  have : a = a' := by simpa using congrArg (fun o => o.map (fun q => q.1)) hp'
  subst this
  omega

/-- For a date-shaped string the validator reaches the date-format loop:
the ISO and interval branches do not fire. -/
theorem validate_eq_dateChecks {s : String} {a b c : List Char} {sep : Char}
    (hp : parseThree s.data = some (a, sep, b, sep, c))
    (hsep : sep = '-' ∨ sep = '/') :
    validateTimeFormat s = dateChecks s.data := by
  obtain ⟨hiso, hnl, hint⟩ := dateShape_no_other_branch hp hsep
  have hlast : s.data.getLast? ≠ some '\n' := fun hh => hnl (mem_of_getLast?_eq hh)
  have hpd : pyDollar matchIntervalCore s.data = false := by
    rw [pyDollar_of_no_newline _ _ hnl, hint]
  simp [validateTimeFormat, String.toList, hiso, hlast, hpd]

/-- Evaluation of the date-format loop when the `YYYY<sep>MM<sep>DD`
pattern matches: the loop returns `True` exactly when strptime accepts,
and otherwise falls through every remaining pattern into the error. -/
theorem dateChecks_of_ymd {cs a b c : List Char} {sep : Char}
    (hp : parseThree cs = some (a, sep, b, sep, c))
    (hsep : sep = '-' ∨ sep = '/')
    (hm : matchYMDCore sep cs = true) :
    dateChecks cs = (if strptimeYMD sep cs = true then Except.ok true
                     else Except.error ()) := by
  have hnl : '\n' ∉ cs := (dateShape_no_other_branch hp hsep).2.1
  have hpd : ∀ m : List Char → Bool, pyDollar m cs = m cs :=
    fun m => pyDollar_of_no_newline m cs hnl
  have hmdy1 : matchMDYCore '/' cs = false := by
    by_contra hx
    rw [Bool.not_eq_false] at hx
    exact matchYMD_MDY_exclusive hm hx
  have hmdy2 : matchMDYCore '-' cs = false := by
    by_contra hx
    rw [Bool.not_eq_false] at hx
    exact matchYMD_MDY_exclusive hm hx
  rcases hsep with rfl | rfl
  · have hoth : matchYMDCore '/' cs = false := by
      by_contra hx
      rw [Bool.not_eq_false] at hx
      exact absurd (matchYMDCore_exclusive hx hm) (by decide)
    simp [dateChecks, tryDate, hpd, hoth, hm, hmdy1, hmdy2]
  · have hoth : matchYMDCore '-' cs = false := by
      by_contra hx
      rw [Bool.not_eq_false] at hx
      exact absurd (matchYMDCore_exclusive hm hx) (by decide)
    simp [dateChecks, tryDate, hpd, hoth, hm, hmdy1, hmdy2]

/-- Evaluation of the date-format loop when the `MM<sep>DD<sep>YYYY`
pattern matches. -/
theorem dateChecks_of_mdy {cs a b c : List Char} {sep : Char}
    (hp : parseThree cs = some (a, sep, b, sep, c))
    (hsep : sep = '-' ∨ sep = '/')
    (hm : matchMDYCore sep cs = true) :
    dateChecks cs = (if strptimeMDY sep cs = true then Except.ok true
                     else Except.error ()) := by
  have hnl : '\n' ∉ cs := (dateShape_no_other_branch hp hsep).2.1
  have hpd : ∀ m : List Char → Bool, pyDollar m cs = m cs :=
    fun m => pyDollar_of_no_newline m cs hnl
  have hymd1 : matchYMDCore '/' cs = false := by
    by_contra hx
    rw [Bool.not_eq_false] at hx
    exact matchYMD_MDY_exclusive hx hm
  have hymd2 : matchYMDCore '-' cs = false := by
    by_contra hx
    rw [Bool.not_eq_false] at hx
    exact matchYMD_MDY_exclusive hx hm
  rcases hsep with rfl | rfl
  · have hoth : matchMDYCore '/' cs = false := by
      by_contra hx
      rw [Bool.not_eq_false] at hx
      exact absurd (matchMDYCore_exclusive hx hm) (by decide)
    simp [dateChecks, tryDate, hpd, hymd1, hymd2, hoth, hm]
  · have hoth : matchMDYCore '-' cs = false := by
      by_contra hx
      rw [Bool.not_eq_false] at hx
      exact absurd (matchMDYCore_exclusive hm hx) (by decide)
    simp [dateChecks, tryDate, hpd, hymd1, hymd2, hoth, hm]

/-! ## Claim C6 -/

/-- Claim C6: for every string matching one of the four calendar-date
patterns (`YYYY/M/D`, `YYYY-M-D`, `M/D/YYYY`, `M-D-YYYY`, with 1-2 digit
month and day), the time-specification validator succeeds exactly when the
denoted `(year, month, day)` triple is a real calendar date that
`datetime.strptime` can construct: `2023-02-30` fails, `2023-02-28`
succeeds (source lines 130-158). -/
theorem date_patterns_validate_iff_real_date
    (s : String) (y m d : Nat)
    (hmatch : matchYMDCore '/' s.toList = true ∨ matchYMDCore '-' s.toList = true ∨
              matchMDYCore '/' s.toList = true ∨ matchMDYCore '-' s.toList = true)
    (hfields : dateFieldsOf s.toList = some (y, m, d)) :
    (validateTimeFormat s = Except.ok true ↔ isRealDate y m d = true) := by
  simp only [String.toList] at hmatch hfields
  rcases hmatch with hm | hm | hm | hm
  · obtain ⟨a, b, c, hp, ha, hb1, hb2, hc1, hc2⟩ := matchYMDCore_spec hm
    have hfe : (y, m, d) = (digitsToNat a, digitsToNat b, digitsToNat c) := by
      have hab : (a.length == 4) = true := by simpa using ha
      rw [dateFieldsOf, hp] at hfields
      simp only [hab, if_true, Option.some.injEq] at hfields
      exact hfields.symm
    obtain ⟨rfl, rfl, rfl⟩ : y = digitsToNat a ∧ m = digitsToNat b ∧
        d = digitsToNat c := by simpa using hfe
    rw [validate_eq_dateChecks hp (Or.inr rfl),
      dateChecks_of_ymd hp (Or.inr rfl) hm,
      strptimeYMD_of_match hm a b c hp]
    by_cases hr : isRealDate (digitsToNat a) (digitsToNat b) (digitsToNat c) = true
    · simp [hr]
    · simp [hr]
  · obtain ⟨a, b, c, hp, ha, hb1, hb2, hc1, hc2⟩ := matchYMDCore_spec hm
    have hfe : (y, m, d) = (digitsToNat a, digitsToNat b, digitsToNat c) := by
      have hab : (a.length == 4) = true := by simpa using ha
      rw [dateFieldsOf, hp] at hfields
      simp only [hab, if_true, Option.some.injEq] at hfields
      exact hfields.symm
    obtain ⟨rfl, rfl, rfl⟩ : y = digitsToNat a ∧ m = digitsToNat b ∧
        d = digitsToNat c := by simpa using hfe
    rw [validate_eq_dateChecks hp (Or.inl rfl),
      dateChecks_of_ymd hp (Or.inl rfl) hm,
      strptimeYMD_of_match hm a b c hp]
    by_cases hr : isRealDate (digitsToNat a) (digitsToNat b) (digitsToNat c) = true
    · simp [hr]
    · simp [hr]
  · obtain ⟨a, b, c, hp, ha1, ha2, hb1, hb2, hc⟩ := matchMDYCore_spec hm
    have hfe : (y, m, d) = (digitsToNat c, digitsToNat a, digitsToNat b) := by
      have hab : (a.length == 4) = false := by
        simp only [beq_eq_false_iff_ne, ne_eq]
        omega
      rw [dateFieldsOf, hp] at hfields
      simp only [hab, Bool.false_eq_true, if_false, Option.some.injEq] at hfields
      exact hfields.symm
    obtain ⟨rfl, rfl, rfl⟩ : y = digitsToNat c ∧ m = digitsToNat a ∧
        d = digitsToNat b := by simpa using hfe
    rw [validate_eq_dateChecks hp (Or.inr rfl),
      dateChecks_of_mdy hp (Or.inr rfl) hm,
      strptimeMDY_of_match hm a b c hp]
    by_cases hr : isRealDate (digitsToNat c) (digitsToNat a) (digitsToNat b) = true
    · simp [hr]
    · simp [hr]
  · obtain ⟨a, b, c, hp, ha1, ha2, hb1, hb2, hc⟩ := matchMDYCore_spec hm
    have hfe : (y, m, d) = (digitsToNat c, digitsToNat a, digitsToNat b) := by
      have hab : (a.length == 4) = false := by
        simp only [beq_eq_false_iff_ne, ne_eq]
        omega
      rw [dateFieldsOf, hp] at hfields
      simp only [hab, Bool.false_eq_true, if_false, Option.some.injEq] at hfields
      exact hfields.symm
    obtain ⟨rfl, rfl, rfl⟩ : y = digitsToNat c ∧ m = digitsToNat a ∧
        d = digitsToNat b := by simpa using hfe
    rw [validate_eq_dateChecks hp (Or.inl rfl),
      dateChecks_of_mdy hp (Or.inl rfl) hm,
      strptimeMDY_of_match hm a b c hp]
    by_cases hr : isRealDate (digitsToNat c) (digitsToNat a) (digitsToNat b) = true
    · simp [hr]
    · simp [hr]

/-- Witness for C6: `2023-02-28` is a real date and validates; `2023-02-30`
is not a real date, and the theorem forces validation to fail on it. -/
theorem date_patterns_validate_witness :
    validateTimeFormat "2023-02-28" = Except.ok true ∧
    validateTimeFormat "2023-02-30" ≠ Except.ok true := by
  constructor
  · exact (date_patterns_validate_iff_real_date "2023-02-28" 2023 2 28
      (Or.inr (Or.inl rfl)) rfl).mpr (by decide)
  · intro hcontra
    have := (date_patterns_validate_iff_real_date "2023-02-30" 2023 2 30
      (Or.inr (Or.inl rfl)) rfl).mp hcontra
    exact absurd this (by decide)

/-! ## Supporting lemmas for claim C5 -/

theorem IsIntervalL_alphabet {cs : List Char} (h : IsIntervalL false cs) :
    ∀ x ∈ cs, isGrammarChar x = true := by
  obtain ⟨comps, hne, hcomp, rfl⟩ := h
  intro x hx
  rw [List.mem_flatten] at hx
  obtain ⟨p, hp, hxp⟩ := hx
  obtain ⟨ds, u, rfl, hds, hdig, hu, _⟩ := hcomp p hp
  rcases List.mem_append.mp hxp with hx1 | hx2
  · simp [isGrammarChar, hdig x hx1]
  · rw [List.mem_singleton] at hx2
    subst hx2
    simp [isGrammarChar, hu]

theorem IsIntervalL_ne_nil {cs : List Char} (h : IsIntervalL false cs) :
    cs ≠ [] := by
  obtain ⟨comps, hne, hcomp, rfl⟩ := h
  cases comps with
  | nil => exact absurd rfl hne
  | cons p rest =>
    obtain ⟨ds, u, rfl, hds, _, _, _⟩ := hcomp p (List.mem_cons_self p rest)
    simp

theorem matchIntervalCore_nil : matchIntervalCore [] = false := by
  unfold matchIntervalCore
  simp [splitDigits]


theorem matchIntervalCore_of {cs ds : List Char} {u : Char} {rest : List Char}
    (hds : ds ≠ []) (hu : isUnit u = true)
    (hsplit : splitDigits cs = (ds, u :: rest))
    (hrest : rest.isEmpty = true ∨ matchIntervalCore rest = true) :
    matchIntervalCore cs = true := by
  unfold matchIntervalCore
  split
  next d' ds' u' r' heq =>
    rw [hsplit] at heq
    injection heq with h1 h2
    injection h2 with h2a h2b
    subst h2a h2b
    simp only [Bool.and_eq_true, Bool.or_eq_true]
    exact ⟨hu, hrest⟩
  next hno =>
    cases ds with
    | nil => exact absurd rfl hds
    | cons d0 dss => exact absurd hsplit (fun hh => (hno d0 dss u rest hh).elim)

theorem matchIntervalCore_iff_aux :
    ∀ (n : Nat) (cs : List Char), cs.length ≤ n →
      (matchIntervalCore cs = true ↔ IsIntervalL false cs) := by
  intro n
  induction n with
  | zero =>
    intro cs hlen
    have hnil : cs = [] := List.eq_nil_of_length_eq_zero (Nat.le_zero.mp hlen)
    subst hnil
    constructor
    · intro h
      rw [matchIntervalCore_nil] at h
      exact absurd h (by decide)
    · intro h
      exact absurd rfl (IsIntervalL_ne_nil h)
  | succ n ih =>
    intro cs hlen
    constructor
    · intro h
      unfold matchIntervalCore at h
      split at h
      next d ds u r heq =>
        simp only [Bool.and_eq_true, Bool.or_eq_true] at h
        obtain ⟨hu, hrest⟩ := h
        have happ := splitDigits_append cs
        rw [heq] at happ
        have hdig := splitDigits_digits cs
        rw [heq] at hdig
        dsimp only at happ hdig
        rcases hrest with hre | hcore
        · have hrnil : r = [] := List.isEmpty_iff.mp hre
          subst hrnil
          refine ⟨[(d :: ds) ++ [u]], by simp, ?_, ?_⟩
          · intro p hp
            rw [List.mem_singleton] at hp
            subst hp
            exact ⟨d :: ds, u, rfl, by simp, hdig, hu, by simp⟩
          · simp [← happ]
        · have hrlen : r.length ≤ n := by
            have : cs.length = (d :: ds).length + (u :: r).length := by
              rw [← happ, List.length_append]
            simp only [List.length_cons] at this
            omega
          obtain ⟨comps, hne', hcomp', hflat'⟩ := (ih r hrlen).mp hcore
          refine ⟨((d :: ds) ++ [u]) :: comps, by simp, ?_, ?_⟩
          · intro p hp
            rcases List.mem_cons.mp hp with rfl | hp2
            · exact ⟨d :: ds, u, rfl, by simp, hdig, hu, by simp⟩
            · exact hcomp' p hp2
          · rw [← happ, hflat']
            simp
      next => exact absurd h (by decide)
    · intro h
      obtain ⟨comps, hne, hcomp, hflat⟩ := h
      cases comps with
      | nil => exact absurd rfl hne
      | cons p rest =>
        obtain ⟨ds, u, rfl, hds, hdig, hu, _⟩ :=
          hcomp p (List.mem_cons_self p rest)
        have hflat2 : cs = ds ++ (u :: rest.flatten) := by
          rw [hflat]
          simp
        have hsplit : splitDigits cs = (ds, u :: rest.flatten) := by
          rw [hflat2]
          refine splitDigits_of_digits ds (u :: rest.flatten) hdig ?_
          intro x hx
          rw [List.head?_cons, Option.mem_some_iff] at hx
          subst hx
          exact isUnit_not_digit hu
        refine matchIntervalCore_of hds hu hsplit ?_
        cases rest with
        | nil => exact Or.inl (by simp)
        | cons q qs =>
          right
          have hlen2 : (q :: qs).flatten.length ≤ n := by
            have h1 : cs.length = ds.length + 1 + (q :: qs).flatten.length := by
              rw [hflat2]
              simp only [List.length_append, List.length_cons]
              omega
            have h2 : 1 ≤ ds.length := by
              cases ds with
              | nil => exact absurd rfl hds
              | cons _ _ => simp
            omega
          refine (ih _ hlen2).mpr ?_
          exact ⟨q :: qs, by simp, fun p hp => hcomp p (List.mem_cons_of_mem _ hp), rfl⟩

theorem matchIntervalCore_iff {cs : List Char} :
    matchIntervalCore cs = true ↔ IsIntervalL false cs :=
  matchIntervalCore_iff_aux cs.length cs (Nat.le_refl _)

theorem findIntervalComps_check_aux :
    ∀ (n : Nat) (cs : List Char), cs.length ≤ n →
      ∀ comp ∈ findIntervalComps cs, compCheck comp = true := by
  intro n
  induction n with
  | zero =>
    intro cs hlen comp hcomp
    have hnil : cs = [] := List.eq_nil_of_length_eq_zero (Nat.le_zero.mp hlen)
    subst hnil
    unfold findIntervalComps at hcomp
    simp at hcomp
  | succ n ih =>
    intro cs hlen comp hcomp
    cases cs with
    | nil =>
      unfold findIntervalComps at hcomp
      simp at hcomp
    | cons c rest =>
      have hrlen : rest.length ≤ n := by
        simp only [List.length_cons] at hlen
        omega
      unfold findIntervalComps at hcomp
      split at hcomp
      next d ds u r heq =>
        have hdig := splitDigits_digits (c :: rest)
        rw [heq] at hdig
        dsimp only at hdig
        by_cases hu : isUnit u = true
        · rw [if_pos hu] at hcomp
          rcases List.mem_cons.mp hcomp with rfl | hmem
          · have hsd : splitDigits ((d :: ds) ++ [u]) = (d :: ds, [u]) := by
              refine splitDigits_of_digits (d :: ds) [u] hdig ?_
              intro x hx
              rw [List.head?_cons, Option.mem_some_iff] at hx
              subst hx
              exact isUnit_not_digit hu
            have hcore : matchCompCore (d :: ds ++ [u]) = true := by
              unfold matchCompCore
              rw [show (d :: ds ++ [u]) = (d :: ds) ++ [u] from rfl, hsd]
              exact hu
            simp only [compCheck, pyDollar, Bool.or_eq_true, Bool.and_eq_true]
            exact Or.inl hcore
          · have hr : r.length ≤ n := by
              have happ := splitDigits_append (c :: rest)
              rw [heq] at happ
              dsimp only at happ
              have : (c :: rest).length = (d :: ds).length + (u :: r).length := by
                rw [← happ, List.length_append]
              simp only [List.length_cons] at this ⊢
              omega
            exact ih r hr comp hmem
        · rw [if_neg hu] at hcomp
          exact ih rest hrlen comp hcomp
      next =>
        exact ih rest hrlen comp hcomp

theorem findIntervalComps_check {cs : List Char} :
    ∀ comp ∈ findIntervalComps cs, compCheck comp = true :=
  findIntervalComps_check_aux cs.length cs (Nat.le_refl _)

theorem matchYMDCore_count {sep : Char} {cs : List Char}
    (h : matchYMDCore sep cs = true) : 2 ≤ cs.count sep := by
  obtain ⟨a, b, c, hp, _, _, _, _, _⟩ := matchYMDCore_spec h
  obtain ⟨hcs, _, _, _, _, _⟩ := parseThree_decomp hp
  subst hcs
  simp only [List.count_append, List.count_cons_self]
  omega

theorem matchMDYCore_count {sep : Char} {cs : List Char}
    (h : matchMDYCore sep cs = true) : 2 ≤ cs.count sep := by
  obtain ⟨a, b, c, hp, _, _, _, _, _⟩ := matchMDYCore_spec h
  obtain ⟨hcs, _, _, _, _, _⟩ := parseThree_decomp hp
  subst hcs
  simp only [List.count_append, List.count_cons_self]
  omega

theorem count_insert_le_one (pre post : List Char) (c x : Char)
    (hpre : x ∉ pre) (hpost : x ∉ post) :
    (pre ++ c :: post).count x ≤ 1 := by
  rw [List.count_append, List.count_cons]
  rw [List.count_eq_zero_of_not_mem hpre, List.count_eq_zero_of_not_mem hpost]
  by_cases hcx : c == x
  · simp [hcx]
  · simp [hcx]

theorem validate_of_interval {s : String} (h : IsIntervalL false s.data) :
    validateTimeFormat s = Except.ok true := by
  have halpha := IsIntervalL_alphabet h
  have hnl : '\n' ∉ s.data := by
    intro hn
    have := halpha '\n' hn
    exact absurd this (by decide)
  have hiso : matchIsoCore s.data = false := by
    by_contra hx
    rw [Bool.not_eq_false] at hx
    have hT := (matchIsoCore_has_T hx).1
    have := halpha 'T' hT
    exact absurd this (by decide)
  have hlast : s.data.getLast? ≠ some '\n' := fun hh => hnl (mem_of_getLast?_eq hh)
  have hint : matchIntervalCore s.data = true := matchIntervalCore_iff.mpr h
  have hpd : pyDollar matchIntervalCore s.data = true := by
    simp [pyDollar, hint]
  have hall : (findIntervalComps s.data).all compCheck = true :=
    List.all_eq_true.mpr findIntervalComps_check
  simp [validateTimeFormat, String.toList, hiso, hlast, hpd, hall]

theorem pyDollar_interval_iff (cs : List Char) :
    (pyDollar matchIntervalCore cs = true ↔
      (IsIntervalL false cs ∨ ∃ cs', cs = cs' ++ ['\n'] ∧ IsIntervalL false cs')) := by
  unfold pyDollar
  simp only [Bool.or_eq_true, Bool.and_eq_true, beq_iff_eq]
  constructor
  · rintro (h | ⟨hl, hcore⟩)
    · exact Or.inl (matchIntervalCore_iff.mp h)
    · right
      have hne : cs ≠ [] := by
        intro h0
        subst h0
        simp at hl
      refine ⟨cs.dropLast, ?_, matchIntervalCore_iff.mp hcore⟩
      have hgl : cs.getLast hne = '\n' := by
        have hq := List.getLast?_eq_getLast cs hne
        rw [hl] at hq
        exact Option.some.inj hq.symm
      conv_lhs => rw [← List.dropLast_append_getLast hne, hgl]
  · rintro (h | ⟨cs', rfl, h⟩)
    · exact Or.inl (matchIntervalCore_iff.mpr h)
    · right
      constructor
      · simp [List.getLast?_concat]
      · simpa [List.dropLast_concat] using matchIntervalCore_iff.mpr h

/-- Inserting a non-grammar character anywhere into an interval string —
except a single newline appended at the very end — makes every branch of
the validator fail, so it raises the format error. -/
theorem interval_insertion_fails (pre post : List Char) (c : Char)
    (hI : IsIntervalL false (pre ++ post)) (hc : isGrammarChar c = false)
    (hnn : ¬(c = '\n' ∧ post = [])) :
    validateTimeFormat (String.mk (pre ++ c :: post)) = Except.error () := by
  have halpha := IsIntervalL_alphabet hI
  have hdata : (String.mk (pre ++ c :: post)).data = pre ++ c :: post := rfl
  have hmem_c : ∀ x, x ∈ pre ++ c :: post → isGrammarChar x = false → x = c := by
    intro x hx hxg
    rcases List.mem_append.mp hx with h1 | h2
    · exact absurd (halpha x (List.mem_append_left _ h1)) (by simp [hxg])
    · rcases List.mem_cons.mp h2 with rfl | h3
      · rfl
      · exact absurd (halpha x (List.mem_append_right _ h3)) (by simp [hxg])
  have hlast : (pre ++ c :: post).getLast? ≠ some '\n' := by
    cases post with
    | nil =>
      rw [List.getLast?_concat]
      intro hx
      have hcn : c = '\n' := Option.some.inj hx
      exact hnn ⟨hcn, rfl⟩
    | cons q qs =>
      have h1 : (pre ++ c :: q :: qs).getLast? = (q :: qs).getLast? := by
        rw [List.getLast?_append_of_ne_nil]
        · rw [List.getLast?_cons_cons]
        · simp
      have h2 : (pre ++ q :: qs).getLast? = (q :: qs).getLast? :=
        List.getLast?_append_of_ne_nil _ (by simp)
      intro hx
      rw [h1] at hx
      have hmem : '\n' ∈ q :: qs := mem_of_getLast?_eq hx
      have : isGrammarChar '\n' = true :=
        halpha '\n' (List.mem_append_right _ hmem)
      exact absurd this (by decide)
  have hiso : matchIsoCore (pre ++ c :: post) = false := by
    by_contra hx
    rw [Bool.not_eq_false] at hx
    obtain ⟨hT, hdash⟩ := matchIsoCore_has_T hx
    have h1 : ('T' : Char) = c := hmem_c 'T' hT (by decide)
    have h2 : ('-' : Char) = c := hmem_c '-' hdash (by decide)
    rw [← h1] at h2
    exact absurd h2 (by decide)
  have hint : matchIntervalCore (pre ++ c :: post) = false := by
    by_contra hx
    rw [Bool.not_eq_false] at hx
    have := matchIntervalCore_alphabet hx c
      (List.mem_append_right _ (List.mem_cons_self _ _))
    rw [hc] at this
    exact absurd this (by decide)
  have hsepcount : ∀ x : Char, isGrammarChar x = false →
      (pre ++ c :: post).count x ≤ 1 := by
    intro x hxg
    refine count_insert_le_one pre post c x ?_ ?_
    · intro hx
      exact absurd (halpha x (List.mem_append_left _ hx)) (by simp [hxg])
    · intro hx
      exact absurd (halpha x (List.mem_append_right _ hx)) (by simp [hxg])
  have hymd : ∀ sep : Char, isGrammarChar sep = false →
      matchYMDCore sep (pre ++ c :: post) = false := by
    intro sep hsg
    by_contra hx
    rw [Bool.not_eq_false] at hx
    have := matchYMDCore_count hx
    have := hsepcount sep hsg
    omega
  have hmdy : ∀ sep : Char, isGrammarChar sep = false →
      matchMDYCore sep (pre ++ c :: post) = false := by
    intro sep hsg
    by_contra hx
    rw [Bool.not_eq_false] at hx
    have := matchMDYCore_count hx
    have := hsepcount sep hsg
    omega
  have hpdl : ∀ m : List Char → Bool,
      pyDollar m (pre ++ c :: post) = m (pre ++ c :: post) :=
    fun m => pyDollar_of_getLast? m _ hlast
  have hpd : pyDollar matchIntervalCore (pre ++ c :: post) = false := by
    rw [hpdl _, hint]
  have hlast2 : (c :: post).getLast? ≠ some '\n' := by
    intro hx
    apply hlast
    rw [List.getLast?_append_of_ne_nil _ (by simp : (c :: post) ≠ [])]
    exact hx
  simp [validateTimeFormat, String.toList, hdata, hiso, hlast, hlast2, hpd,
    dateChecks, tryDate, hpdl, hymd '/' (by decide), hymd '-' (by decide),
    hmdy '/' (by decide), hmdy '-' (by decide)]

theorem isIntervalCompL_pair {d u : Char} (hd : d.isDigit = true)
    (hu : isUnit u = true) : IsIntervalCompL false [d, u] :=
  ⟨[d], u, rfl, by simp, by simpa using hd, hu, by simp⟩

/-! ## Claim C5 -/

/-- Claim C5 counterexample: the claim demands components of the form
`<positive integer><unit>` and that inserting any non-grammar character
makes validation fail.  But `\d+` also matches `0`, so `0s` — whose integer
is zero, not positive — validates; and appending a newline (a non-grammar
character, here inserted at the end of `7D`) still validates, because
Python's `$` anchor also matches just before a trailing newline. -/
theorem interval_zero_and_newline_cex :
    validateTimeFormat "0s" = Except.ok true ∧
    ¬ IsPosIntervalString "0s" ∧
    "7D\n".toList = "7D".toList ++ ['\n'] ∧
    validateTimeFormat "7D\n" = Except.ok true ∧
    IsPosIntervalString "7D" ∧
    isGrammarChar '\n' = false := by
  refine ⟨?_, ?_, rfl, ?_, ?_, by decide⟩
  · refine validate_of_interval ⟨[['0', 's']], by simp, ?_, rfl⟩
    intro p hp
    rw [List.mem_singleton] at hp
    subst hp
    exact isIntervalCompL_pair (by decide) (by decide)
  · rintro ⟨comps, hne, hcomp, hflat⟩
    cases comps with
    | nil => exact hne rfl
    | cons p rest =>
      obtain ⟨ds, u, hp, hds, hdig, hu, hpos⟩ :=
        hcomp p (List.mem_cons_self p rest)
      subst hp
      have hflat2 : ['0', 's'] = ds ++ (u :: rest.flatten) := by
        simpa [List.append_assoc] using hflat
      cases ds with
      | nil => exact hds rfl
      | cons d0 ds' =>
        injection hflat2 with h1 h2
        cases ds' with
        | nil =>
          injection h2 with h2a h2b
          have hzz := hpos rfl
          rw [← h1] at hzz
          exact absurd hzz (by decide)
        | cons e es =>
          injection h2 with h2a h2b
          have hlen := congrArg List.length h2b
          simp only [List.length_nil, List.append_eq, List.length_append,
            List.length_cons] at hlen
          omega
  · have h7D : IsIntervalL false ['7', 'D'] := by
      refine ⟨[['7', 'D']], by simp, ?_, rfl⟩
      intro p hp
      rw [List.mem_singleton] at hp
      subst hp
      exact isIntervalCompL_pair (by decide) (by decide)
    have hcore : matchIntervalCore ['7', 'D'] = true :=
      matchIntervalCore_iff.mpr h7D
    have hpd : pyDollar matchIntervalCore ['7', 'D', '\n'] = true := by
      simp only [pyDollar, Bool.or_eq_true, Bool.and_eq_true, beq_iff_eq]
      right
      exact ⟨rfl, hcore⟩
    have hall : (findIntervalComps ['7', 'D', '\n']).all compCheck = true :=
      List.all_eq_true.mpr findIntervalComps_check
    simp [validateTimeFormat, String.toList, hpd, hall,
      show matchIsoCore ['7', 'D', '\n'] = false from rfl,
      show matchIsoCore ['7', 'D'] = false from rfl]
  · refine ⟨[['7', 'D']], by simp, ?_, rfl⟩
    intro p hp
    rw [List.mem_singleton] at hp
    subst hp
    exact ⟨['7'], 'D', rfl, by simp, by decide, by decide, fun _ => by decide⟩

/-- Claim C5 as amended: the interval branch accepts exactly the strings
that are one or more concatenated `<integer (one or more digits, zero
allowed)><unit>` components with unit in {s, m, h, D, W, M, Y} — possibly
followed by one trailing newline, which Python's `$` anchor tolerates;
every such string (without the newline) validates, and inserting any other
non-grammar character anywhere makes validation fail with the format
error. -/
theorem interval_grammar_amended :
    (∀ s : String, IsIntervalString s → validateTimeFormat s = Except.ok true) ∧
    (∀ cs : List Char, (pyDollar matchIntervalCore cs = true ↔
      (IsIntervalL false cs ∨ ∃ cs', cs = cs' ++ ['\n'] ∧ IsIntervalL false cs'))) ∧
    (∀ (pre post : List Char) (c : Char),
      IsIntervalL false (pre ++ post) → isGrammarChar c = false →
      ¬(c = '\n' ∧ post = []) →
      validateTimeFormat (String.mk (pre ++ c :: post)) = Except.error ()) :=
  ⟨fun _ h => validate_of_interval h, pyDollar_interval_iff,
   interval_insertion_fails⟩

/-- Witness for the amended C5: `7D` validates; inserting a space into the
interval string `7D1h` (giving `7D 1h`) raises the format error. -/
theorem interval_grammar_witness :
    validateTimeFormat "7D" = Except.ok true ∧
    validateTimeFormat (String.mk ("7D".toList ++ ' ' :: "1h".toList)) =
      Except.error () := by
  have hcomps : IsIntervalL false ("7D".toList ++ "1h".toList) := by
    refine ⟨[['7', 'D'], ['1', 'h']], by simp, ?_, rfl⟩
    intro p hp
    rcases List.mem_cons.mp hp with rfl | hp2
    · exact isIntervalCompL_pair (by decide) (by decide)
    · rw [List.mem_singleton] at hp2
      subst hp2
      exact isIntervalCompL_pair (by decide) (by decide)
  constructor
  · refine interval_grammar_amended.1 "7D" ⟨[['7', 'D']], by simp, ?_, rfl⟩
    intro p hp
    rw [List.mem_singleton] at hp
    subst hp
    exact isIntervalCompL_pair (by decide) (by decide)
  · exact interval_grammar_amended.2.2 "7D".toList "1h".toList ' '
      hcomps (by decide) (by simp)
